import Mathlib

/-! sigman: signal manager (registry, dispatch loop, lifecycle).

A shallow embedding of `manager.go` and `handlers.go`.

* Go `error` values are the type `Error`; `errors.Is` follows the `%w` chain.
* A `context.Context` is either live or done with an `Err()` value and a cause.
* The mutex of the manager is the boolean `locked` (true = held).  A call that
  reaches `Lock()` while the mutex is held cannot proceed: outcome `blocked`.
* The buffered channel `sm.ch` is its buffer, its closed flag and whether the
  `signal.Notify` subscription is still active.
* The logger is the list of lines written so far, each line kept as the format
  it was printed with together with its arguments.
* A registered handler is a function identity (`HandlerId`); what the function
  does when invoked is given by an environment that maps the identity to a body
  built from calls on the manager's exported methods and from lines the handler
  writes itself.
-/

namespace sigman

/-! ## Errors -/

/-- Go error values: the two sentinels of package `context`, `errors.New(text)`
and `fmt.Errorf(text + ": %w", w)`. -/
inductive Error where
  | Canceled
  | DeadlineExceeded
  | New (text : String)
  | Errorf (text : String) (w : Error)
  deriving DecidableEq, Repr

/-- The unwrap loop of `errors.Is` for two non-nil errors. -/
def Error.is : Error → Error → Bool
  | .Errorf text w, target =>
      if Error.Errorf text w = target then true else Error.is w target
  | e, target => decide (e = target)

/-- Go `errors.Is(err, target)`; a nil error is `none`. -/
def errorsIs (err target : Option Error) : Bool :=
  match err, target with
  | some e, some t => e.is t
  | none, none => true
  | _, _ => false

/-! ## Contexts -/

/-- The state of a `context.Context`: not done, or done with the value of
`Err()` and the cancellation cause. -/
inductive Context where
  | live
  | done (err : Error) (cause : Error)
  deriving DecidableEq, Repr

/-- Go `ctx.Err()`. -/
def Context.Err : Context → Option Error
  | .live => none
  | .done err _ => some err

/-- Go `context.Cause(ctx)`. -/
def Context.Cause : Context → Option Error
  | .live => none
  | .done _ cause => some cause

/-- Go `context.WithCancel(parent)`: the child starts in the parent's state. -/
def WithCancel (parent : Context) : Context := parent

/-- The `CancelFunc` returned by `context.WithCancel`: the first cancellation
wins, a later one changes nothing. -/
def Context.cancel : Context → Context
  | .live => .done .Canceled .Canceled
  | .done err cause => .done err cause

/-- Cancellation of the parent reaches a child that is still live and carries
the parent's error and cause. -/
def Context.parentDone (err cause : Error) : Context → Context
  | .live => .done err cause
  | .done e c => .done e c

/-! ## Signals, channel, log lines -/

/-- An `os.Signal` interface value: nil, or a signal number. -/
inductive Signal where
  | nil
  | sys (n : Nat)
  deriving DecidableEq, Repr

/-- Identity of a non-nil `SignalHandlerFunc` (its code pointer). -/
abbrev HandlerId := Nat

/-- The channel `sm.ch` created by `make(chan os.Signal, 1)`. -/
structure Chan where
  buf : List Signal
  closed : Bool
  notify : Bool
  deriving DecidableEq, Repr

/-- A receive `<-ch`: a buffered value first; on an empty closed channel the
zero value; on an empty open channel the receive is not ready. -/
def Chan.recv (c : Chan) : Option (Signal × Chan) :=
  match c.buf with
  | x :: rest => some (x, { c with buf := rest })
  | [] => if c.closed then some (Signal.nil, c) else none

/-- One `logger.Printf` call, by format. -/
inductive LogLine where
  | assigned (f : HandlerId) (sig : Signal)
  | removedAll
  | removed (sig : Signal)
  | got (sig : Signal) (n : Nat)
  | exec (f : HandlerId) (err : Option Error)
  | noHandler (sig : Signal)
  | user (tag : Nat)
  deriving DecidableEq, Repr

/-- Whether a line was written by a handler itself (as the handler of the
example program does with the manager's logger) and not by the manager. -/
def LogLine.isUser : LogLine → Bool
  | .user _ => true
  | _ => false

/-! ## The manager -/

/-- The struct `Sigman`.  `locked` is the state of the mutex `mut` (a reserved
word here); `ctx = none` is the nil context before `Wait`;
`ctxCancel` is `Context.cancel` applied to `ctx`. -/
structure Sigman where
  handlers : Signal → Option (List HandlerId)
  signals : List Signal
  ch : Chan
  ctx : Option Context
  logger : List LogLine
  locked : Bool
  started : Bool

/-- Result of a call on the manager. -/
inductive Outcome where
  | ret (sm : Sigman) (err : Option Error)
  | blocked
  | panicked

def errNilHandler : Error := Error.New "nil handler given"

def errNoSignals : Error := Error.New "min 1 signal for handler required"

def errAlreadyStarted : Error := Error.New "already started"

/-- The error `fmt.Errorf("bad ctx given: %w", cause)`. -/
def errBadCtx (cause : Error) : Error := Error.Errorf "bad ctx given" cause

/-- Go `sm.logger.Printf`. -/
def Sigman.printf (sm : Sigman) (l : LogLine) : Sigman :=
  { sm with logger := sm.logger ++ [l] }

/-- Go `New`, with the signal set already chosen by the options. -/
def New (signals : List Signal) : Sigman :=
  { handlers := fun _ => none
    signals := signals
    ch := { buf := [], closed := false, notify := true }
    ctx := none
    logger := []
    locked := false
    started := false }

/-- The body of the `for _, sig := range signals` loop of `Add`. -/
def addOne (f : HandlerId) (sm : Sigman) (sig : Signal) : Sigman :=
  let cur : List HandlerId :=
    match sm.handlers sig with
    | some hs => hs
    | none => []
  ({ sm with handlers := Function.update sm.handlers sig (some (cur ++ [f])) }).printf
    (LogLine.assigned f sig)

/-- Go `(*Sigman).Add`; a nil handler is `none`. -/
def Add (sm : Sigman) (f : Option HandlerId) (signals : List Signal) : Outcome :=
  match f with
  | none => .ret sm (some errNilHandler)
  | some fn =>
    if signals.length = 0 then .ret sm (some errNoSignals)
    else if sm.locked then .blocked
    else
      let sm1 := signals.foldl (addOne fn) { sm with locked := true }
      .ret { sm1 with locked := false } none

/-- Go `(*Sigman).RemoveAll`. -/
def RemoveAll (sm : Sigman) : Outcome :=
  if sm.locked then .blocked
  else
    let sm1 := ({ sm with locked := true, handlers := fun _ => none }).printf LogLine.removedAll
    .ret { sm1 with locked := false } none

/-- The body of the `for _, sig := range signals` loop of `Remove`. -/
def removeOne (sm : Sigman) (sig : Signal) : Sigman :=
  ({ sm with handlers := Function.update sm.handlers sig none }).printf (LogLine.removed sig)

/-- Go `(*Sigman).Remove`. -/
def Remove (sm : Sigman) (signals : List Signal) : Outcome :=
  if signals.length = 0 then .ret sm none
  else if sm.locked then .blocked
  else
    let sm1 := signals.foldl removeOne { sm with locked := true }
    .ret { sm1 with locked := false } none

/-- Go `(*Sigman).Stop`; it takes no lock. -/
def Stop (sm : Sigman) : Sigman × Option Error :=
  match sm.ctx with
  | none => (sm, none)
  | some c =>
    let sm1 := { sm with ctx := some c.cancel }
    let err := c.cancel.Cause
    if errorsIs err (some Error.Canceled) then (sm1, none) else (sm1, err)

/-- Go `(*Sigman).Close`: `signal.Stop`, `close(sm.ch)` (which panics on a
closed channel), then `Stop`, all under the lock. -/
def Close (sm : Sigman) : Outcome :=
  if sm.locked then .blocked
  else if sm.ch.closed then .panicked
  else
    let sm1 := { sm with locked := true, ch := { sm.ch with notify := false, closed := true } }
    let r := Stop sm1
    .ret { r.1 with locked := false } r.2

/-- Go `(*Sigman).Ctx`. -/
def Ctx (sm : Sigman) : Option Context := sm.ctx

/-! ## Handlers -/

/-- A call on the manager made from a handler or from another goroutine. -/
inductive Call where
  | Add (f : Option HandlerId) (signals : List Signal)
  | Remove (signals : List Signal)
  | RemoveAll
  | Stop
  | Close
  | Ctx
  deriving DecidableEq, Repr

/-- Perform one call. -/
def runCall (c : Call) (sm : Sigman) : Outcome :=
  match c with
  | .Add f signals => Add sm f signals
  | .Remove signals => Remove sm signals
  | .RemoveAll => RemoveAll sm
  | .Stop => let r := Stop sm; .ret r.1 r.2
  | .Close => Close sm
  | .Ctx => .ret sm none

/-- What a handler does with the manager it is given: `seq c k` calls `m.c(...)`,
drops the result and goes on with `k`; `print tag k` writes a line of the
handler's own to the logger and goes on with `k`; `retCall c` is
`return m.c(...)`; `ret e` is `return e`. -/
inductive HandlerBody where
  | ret (e : Option Error)
  | retCall (c : Call)
  | seq (c : Call) (k : HandlerBody)
  | print (tag : Nat) (k : HandlerBody)
  deriving DecidableEq, Repr

/-- The code behind each handler identity, as a function of the arguments
`ctx` and `sig` it is invoked with. -/
abbrev Env := HandlerId → Option Context → Signal → HandlerBody

/-- Run a handler body on the manager. -/
def runBody : HandlerBody → Sigman → Outcome
  | .ret e, sm => .ret sm e
  | .retCall c, sm => runCall c sm
  | .seq c k, sm =>
    match runCall c sm with
    | .ret sm1 _ => runBody k sm1
    | .blocked => .blocked
    | .panicked => .panicked
  | .print tag k, sm => runBody k (sm.printf (LogLine.user tag))

/-- Go `defaultHandler`. -/
def defaultHandler (sig : Signal) (sm : Sigman) : Sigman × Option Error :=
  (sm.printf (LogLine.noHandler sig), none)

/-- Go `Shutdown`: `return m.Stop()`. -/
def Shutdown : HandlerBody := .retCall .Stop

/-! ## The dispatch loop -/

/-- The `for _, handler := range sm.handlers[sig]` loop of `Wait`. -/
def runHandlers (env : Env) (sig : Signal) : List HandlerId → Sigman → Outcome
  | [], sm => .ret sm none
  | h :: hs, sm =>
    match runBody (env h sm.ctx sig) sm with
    | .ret sm1 err => runHandlers env sig hs (sm1.printf (LogLine.exec h err))
    | .blocked => .blocked
    | .panicked => .panicked

/-- Which case of the `select` is taken. -/
inductive SelectCase where
  | done
  | recv
  deriving DecidableEq, Repr

/-- Where `Wait` stands. -/
inductive Run where
  | returned (sm : Sigman) (err : Option Error)
  | running (sm : Sigman)
  | blocked
  | notReady
  | panicked

/-- One iteration of the `for { select { ... } }` of `Wait` that takes the
given case; `notReady` when that case cannot be taken in this state. -/
def loopIter (env : Env) (pick : SelectCase) (sm : Sigman) : Run :=
  match pick with
  | .done =>
    match sm.ctx with
    | none => .panicked
    | some c =>
      match c.Err with
      | some _ => .returned sm c.Cause
      | none => .notReady
  | .recv =>
    match sm.ch.recv with
    | none => .notReady
    | some (sig, ch1) =>
      if sm.locked then .blocked
      else
        let sm1 := { sm with ch := ch1, locked := true }
        match sm1.handlers sig with
        | none => .running { (defaultHandler sig sm1).1 with locked := false }
        | some hs =>
          match runHandlers env sig hs (sm1.printf (LogLine.got sig hs.length)) with
          | .ret sm2 _ => .running { sm2 with locked := false }
          | .blocked => .blocked
          | .panicked => .panicked

/-- The loop of `Wait` over a schedule of `select` choices. -/
def waitLoop (env : Env) : List SelectCase → Sigman → Run
  | [], sm => .running sm
  | p :: ps, sm =>
    match loopIter env p sm with
    | .running sm1 => waitLoop env ps sm1
    | r => r

/-- Go `(*Sigman).Wait` up to the loop. -/
def waitEnter (sm : Sigman) (ctx : Context) : Run :=
  match ctx.Err with
  | some _ =>
    match ctx.Cause with
    | some cause => .returned sm (some (errBadCtx cause))
    | none => .panicked
  | none =>
    if sm.locked then .blocked
    else
      let sm1 := { sm with locked := true }
      if sm1.started then .returned sm1 (some errAlreadyStarted)
      else .running { sm1 with started := true, ctx := some (WithCancel ctx), locked := false }

/-- Go `(*Sigman).Wait`. -/
def Wait (env : Env) (sm : Sigman) (ctx : Context) (sched : List SelectCase) : Run :=
  match waitEnter sm ctx with
  | .running sm1 => waitLoop env sched sm1
  | r => r

/-- The OS raises `sig`: `signal.Notify` relays it to `sm.ch` without blocking
when the channel is subscribed, the signal is watched and the buffer has room. -/
def deliver (sm : Sigman) (sig : Signal) : Sigman :=
  if sm.ch.notify && (sm.signals.isEmpty || sm.signals.contains sig) && sm.ch.buf.length < 1
  then { sm with ch := { sm.ch with buf := sm.ch.buf ++ [sig] } }
  else sm

/-- The caller's context becomes done: the governing context follows. -/
def callerDone (sm : Sigman) (err cause : Error) : Sigman :=
  { sm with ctx := sm.ctx.map (Context.parentDone err cause) }

/-- The value `Wait` returned, if it returned. -/
def Run.result : Run → Option (Option Error)
  | .returned _ err => some err
  | _ => none

/-! ## Fixtures: signals, managers and handler code used at concrete inputs -/

def SIGUSR1 : Signal := Signal.sys 10

def SIGUSR2 : Signal := Signal.sys 12

def SIGTERM : Signal := Signal.sys 15

/-- Every handler returns nil. -/
def envNil : Env := fun _ _ _ => HandlerBody.ret none

/-- Handler 0 is `Shutdown`; every other handler returns nil. -/
def envShutdown : Env := fun h _ _ =>
  if h = 0 then Shutdown else HandlerBody.ret none

/-- Handler 1 writes a line and returns an error; every other handler writes a
line and returns nil. -/
def envFail : Env := fun h _ _ =>
  if h = 1 then HandlerBody.print 1 (HandlerBody.ret (some (Error.New "boom")))
  else HandlerBody.print h (HandlerBody.ret none)

/-- Handlers 1 to 4 call `Add`, `Remove`, `RemoveAll` and `Close` on the manager
they are given and then return nil; handler 5 calls `Stop` and `Ctx`; handler 6
calls `Stop` and then `Remove`. -/
def envReentrant : Env := fun h _ _ =>
  if h = 1 then HandlerBody.seq (Call.Add (some 9) [SIGUSR2]) (HandlerBody.ret none)
  else if h = 2 then HandlerBody.seq (Call.Remove [SIGUSR2]) (HandlerBody.ret none)
  else if h = 3 then HandlerBody.seq Call.RemoveAll (HandlerBody.ret none)
  else if h = 4 then HandlerBody.seq Call.Close (HandlerBody.ret none)
  else if h = 5 then HandlerBody.seq Call.Stop (HandlerBody.seq Call.Ctx (HandlerBody.ret none))
  else if h = 6 then HandlerBody.seq Call.Stop (HandlerBody.retCall (Call.Remove [SIGUSR2]))
  else HandlerBody.ret none

/-- A manager inside `Wait`: started, governing context live, lock free. -/
def running0 : Sigman :=
  { New [SIGUSR1, SIGUSR2, SIGTERM] with started := true, ctx := some Context.live }

/-- The manager `running0` with the handlers `hs` registered for `SIGUSR1` and a
`SIGUSR1` waiting in the channel. -/
def pending (hs : List HandlerId) : Sigman :=
  { running0 with
    handlers := fun sig => if sig = SIGUSR1 then some hs else none
    ch := { buf := [SIGUSR1], closed := false, notify := true } }

/-- Whether a call reaches `Lock()` on the manager's mutex: `Add` after its two
argument checks, `Remove` after its length check, `RemoveAll` and `Close`. -/
def Call.locks : Call → Bool
  | .Add (some _) (_ :: _) => true
  | .Remove (_ :: _) => true
  | .RemoveAll => true
  | .Close => true
  | _ => false

/-- Whether a handler body makes a call that reaches `Lock()`. -/
def HandlerBody.locks : HandlerBody → Bool
  | .ret _ => false
  | .retCall c => c.locks
  | .seq c k => c.locks || k.locks
  | .print _ k => k.locks

/-- A cause that wraps `context.Canceled`. -/
def wrappedCancel : Error := Error.Errorf "shutdown" Error.Canceled

/-- The manager `running0` after its caller cancelled with `wrappedCancel`. -/
def callerCancelled : Sigman := callerDone running0 Error.Canceled wrappedCancel

/-- The state a call returned with, or `sm` when it did not return. -/
def Outcome.stateOr (sm : Sigman) : Outcome → Sigman
  | .ret sm1 _ => sm1
  | _ => sm

/-- A new manager watching `SIGTERM`, with `Shutdown` (handler 0) registered for
it and a `SIGTERM` already raised. -/
def withShutdown : Sigman :=
  deliver ((Add (New [SIGTERM]) (some 0) [SIGTERM]).stateOr (New [SIGTERM])) SIGTERM


/-- A sequence of `Add` calls each of which returns nil; `none` as soon as one
of them returns an error or does not return. -/
def addSeq : Sigman → List (Option HandlerId × List Signal) → Option Sigman
  | sm, [] => some sm
  | sm, (f, signals) :: rest =>
    match Add sm f signals with
    | .ret sm1 none => addSeq sm1 rest
    | _ => none

/-- Specification side of the registration order: the handlers of the calls
that named `s`, in call order, one entry per occurrence of `s` in a call. -/
def specAdded (s : Signal) : List (Option HandlerId × List Signal) → List HandlerId
  | [] => []
  | (some f, signals) :: rest => List.replicate (signals.count s) f ++ specAdded s rest
  | (none, _) :: rest => specAdded s rest

/-! ## Basic facts -/

theorem Error.is_refl (e : Error) : e.is e = true := by
  cases e <;> simp [Error.is]

theorem waitEnter_running_New (signals : List Signal) :
    waitEnter (New signals) Context.live =
      Run.running { New signals with started := true, ctx := some Context.live } := rfl

/-! ## Wait: entry -/

/-- C9: with a caller context that is already done, `Wait` returns at once the
bad-context error wrapping the context's cause, `errors.Is` of that result
against the cause holds, and the manager it returns with is the manager it was
called on, every field untouched. -/
theorem Wait_done_ctx (env : Env) (sm : Sigman) (err cause : Error) (sched : List SelectCase) :
    Wait env sm (Context.done err cause) sched = Run.returned sm (some (errBadCtx cause)) ∧
    errorsIs (some (errBadCtx cause)) (Context.done err cause).Cause = true := by
  refine ⟨rfl, ?_⟩
  simp [errorsIs, Context.Cause, errBadCtx, Error.is, Error.is_refl]

/-- C1 (defect): a second `Wait` on a started manager returns the
already-started error with the mutex still held; afterwards a valid `Add`, a
`Remove`, `RemoveAll`, `Close` and the dispatch of a pending signal are all
blocked. -/
theorem Wait_already_started_keeps_lock (env : Env) (sched : List SelectCase) :
    running0.started = true ∧ running0.locked = false ∧
    Wait env running0 Context.live sched =
      Run.returned { running0 with locked := true } (some errAlreadyStarted) ∧
    Add { running0 with locked := true } (some 1) [SIGUSR1] = Outcome.blocked ∧
    Remove { running0 with locked := true } [SIGUSR1] = Outcome.blocked ∧
    RemoveAll { running0 with locked := true } = Outcome.blocked ∧
    Close { running0 with locked := true } = Outcome.blocked ∧
    loopIter env SelectCase.recv (deliver { running0 with locked := true } SIGUSR1) =
      Run.blocked := by
  refine ⟨rfl, rfl, rfl, rfl, rfl, rfl, rfl, rfl⟩

/-! ## Registry: Add and Remove -/

/-- C8: `Add` returns an error exactly when the handler is nil (the nil-handler
error) or, the handler being non-nil, the signal list is empty (the no-signals
error); and whenever it returns an error the manager, its registry included, is
the one it was called on. -/
theorem Add_error_iff (sm sm' : Sigman) (f : Option HandlerId) (signals : List Signal)
    (e : Error) :
    Add sm f signals = Outcome.ret sm' (some e) ↔
      (sm' = sm ∧ ((f = none ∧ e = errNilHandler) ∨
        (f ≠ none ∧ signals = [] ∧ e = errNoSignals))) := by
  cases f with
  | none =>
    simp only [Add, Outcome.ret.injEq, Option.some.injEq]
    constructor
    · rintro ⟨h1, h2⟩
      subst h1
      subst h2
      simp
    · rintro ⟨h1, h2⟩
      subst h1
      simp at h2
      simp [h2]
  | some fn =>
    cases signals with
    | nil =>
      simp only [Add, List.length_nil, if_true, Outcome.ret.injEq, Option.some.injEq]
      constructor
      · rintro ⟨h1, h2⟩
        subst h1
        subst h2
        simp
      · rintro ⟨h1, h2⟩
        subst h1
        simp at h2
        simp [h2]
    | cons x xs =>
      by_cases hl : sm.locked = true
      · simp [Add, hl]
      · simp [Add, hl]

theorem foldl_removeOne_handlers (signals : List Signal) (sm : Sigman) (sig : Signal) :
    (signals.foldl removeOne sm).handlers sig =
      if sig ∈ signals then none else sm.handlers sig := by
  induction signals generalizing sm with
  | nil => simp
  | cons x xs ih =>
    rw [List.foldl_cons, ih]
    by_cases hx : sig = x
    · subst hx
      by_cases hm : sig ∈ xs <;> simp [hm, removeOne, Sigman.printf]
    · by_cases hm : sig ∈ xs <;> simp [hm, hx, removeOne, Sigman.printf, Function.update]

theorem foldl_removeOne_frame (signals : List Signal) (sm : Sigman) :
    (signals.foldl removeOne sm).signals = sm.signals ∧
    (signals.foldl removeOne sm).ch = sm.ch ∧
    (signals.foldl removeOne sm).ctx = sm.ctx ∧
    (signals.foldl removeOne sm).started = sm.started ∧
    (signals.foldl removeOne sm).locked = sm.locked := by
  induction signals generalizing sm with
  | nil => simp
  | cons x xs ih =>
    rw [List.foldl_cons]
    obtain ⟨h1, h2, h3, h4, h5⟩ := ih (removeOne sm x)
    exact ⟨h1, h2, h3, h4, h5⟩

/-- C10: `Remove` with no signals returns the manager unchanged; `Remove` with
a non-empty list, once it holds the lock, leaves no entry for any named signal
(so the dispatch of such a signal takes the no-handler branch), leaves every
other entry as it was, and changes neither the watched signal set nor the
channel subscription. -/
theorem Remove_frame (sm : Sigman) (signals : List Signal) :
    (signals = [] → Remove sm signals = Outcome.ret sm none) ∧
    (signals ≠ [] → sm.locked = false →
      ∃ sm', Remove sm signals = Outcome.ret sm' none ∧
        (∀ sig, sig ∈ signals → sm'.handlers sig = none) ∧
        (∀ sig, sig ∉ signals → sm'.handlers sig = sm.handlers sig) ∧
        sm'.signals = sm.signals ∧ sm'.ch = sm.ch ∧ sm'.locked = false ∧
        (∀ env sig ch1, sig ∈ signals → sm'.ch.recv = some (sig, ch1) →
          loopIter env SelectCase.recv sm' =
            Run.running
              { (defaultHandler sig { sm' with ch := ch1, locked := true }).1 with
                locked := false })) := by
  constructor
  · intro h
    subst h
    rfl
  · intro hne hl
    have hlen : signals.length ≠ 0 := by
      intro h
      exact hne (List.length_eq_zero.mp h)
    obtain ⟨f1, f2, -, -, -⟩ := foldl_removeOne_frame signals { sm with locked := true }
    have hh : ∀ sig, (signals.foldl removeOne { sm with locked := true }).handlers sig =
        if sig ∈ signals then none else sm.handlers sig :=
      fun sig => foldl_removeOne_handlers signals { sm with locked := true } sig
    refine ⟨{ signals.foldl removeOne { sm with locked := true } with locked := false },
      ?_, ?_, ?_, f1, f2, rfl, ?_⟩
    · simp [Remove, hlen, hl]
    · intro sig hs
      simp [hh sig, hs]
    · intro sig hs
      simp [hh sig, hs]
    · intro env sig ch1 hs hr
      have hnone : (signals.foldl removeOne { sm with locked := true }).handlers sig = none := by
        simp [hh sig, hs]
      simp only [loopIter, hr]
      simp [hnone]

/-- Witness for C10: removing `SIGUSR1` from the manager `pending [3]`. -/
theorem Remove_frame_witness :
    ∃ sm', Remove (pending [3]) [SIGUSR1] = Outcome.ret sm' none ∧
        (∀ sig, sig ∈ [SIGUSR1] → sm'.handlers sig = none) ∧
        (∀ sig, sig ∉ [SIGUSR1] → sm'.handlers sig = (pending [3]).handlers sig) ∧
        sm'.signals = (pending [3]).signals ∧ sm'.ch = (pending [3]).ch ∧ sm'.locked = false ∧
        (∀ env sig ch1, sig ∈ [SIGUSR1] → sm'.ch.recv = some (sig, ch1) →
          loopIter env SelectCase.recv sm' =
            Run.running
              { (defaultHandler sig { sm' with ch := ch1, locked := true }).1 with
                locked := false }) :=
  (Remove_frame (pending [3]) [SIGUSR1]).2 (by decide) rfl

/-! ## Stop and the terminal cause -/

theorem Context.cancel_done (c : Context) :
    ∃ err cause, c.cancel = Context.done err cause ∧
      (c = Context.live → cause = Error.Canceled) ∧
      (∀ e k, c = Context.done e k → cause = k) := by
  cases c with
  | live => exact ⟨Error.Canceled, Error.Canceled, rfl, fun _ => rfl, fun _ _ h => (by cases h)⟩
  | done e k =>
    refine ⟨e, k, rfl, fun h => (by cases h), fun e1 k1 h => ?_⟩
    cases h
    rfl

theorem Stop_state (sm : Sigman) :
    (Stop sm).1 = { sm with ctx := sm.ctx.map Context.cancel } := by
  obtain ⟨handlers, signals, ch, ctx, logger, locked, started⟩ := sm
  cases ctx with
  | none => rfl
  | some c =>
    simp only [Stop, Option.map_some']
    split <;> rfl

/-- C5 (as stated, refuted): the governing context was cancelled first by the
caller with a cause that wraps `context.Canceled`; `Stop` returns nil although
the resulting cause is not the generic cancelled cause itself. -/
theorem Stop_nil_for_wrapped_cause :
    (Stop callerCancelled).2 = none ∧
    (Stop callerCancelled).1.ctx.bind Context.Cause = some wrappedCancel ∧
    wrappedCancel ≠ Error.Canceled := by
  refine ⟨rfl, rfl, ?_⟩
  decide

/-- C5 (amended): `Stop` on a manager without governing context returns nil and
changes nothing; otherwise it cancels the governing context (the first
cancellation wins), returns nil exactly when `errors.Is` holds between the
resulting cause and `context.Canceled` (the cause is, or wraps, it), and returns
the cause itself in every other case. -/
theorem Stop_spec (sm : Sigman) :
    (sm.ctx = none → Stop sm = (sm, none)) ∧
    (∀ c, sm.ctx = some c →
      (Stop sm).1 = { sm with ctx := some c.cancel } ∧
      ∃ err cause, c.cancel = Context.done err cause ∧
        (c = Context.live → cause = Error.Canceled) ∧
        (∀ e k, c = Context.done e k → cause = k) ∧
        ((Stop sm).2 = none ↔ errorsIs (some cause) (some Error.Canceled) = true) ∧
        (errorsIs (some cause) (some Error.Canceled) = false → (Stop sm).2 = some cause)) := by
  constructor
  · intro h
    simp [Stop, h]
  · intro c h
    obtain ⟨err, cause, hc, h1, h2⟩ := Context.cancel_done c
    have hst : (Stop sm).1 = { sm with ctx := some c.cancel } := by
      simp only [Stop, h]
      split <;> rfl
    refine ⟨hst, err, cause, hc, h1, h2, ?_, ?_⟩
    · simp only [Stop, h, hc, Context.Cause]
      by_cases hi : errorsIs (some cause) (some Error.Canceled) = true
      · simp [hi]
      · simp [hi]
    · intro hi
      simp [Stop, h, hc, Context.Cause, hi]

/-- Witness for C5: `Stop` on the live running manager `running0`. -/
theorem Stop_spec_witness :
    (Stop running0).1 = { running0 with ctx := some Context.live.cancel } ∧
      ∃ err cause, Context.live.cancel = Context.done err cause ∧
        (Context.live = Context.live → cause = Error.Canceled) ∧
        (∀ e k, Context.live = Context.done e k → cause = k) ∧
        ((Stop running0).2 = none ↔ errorsIs (some cause) (some Error.Canceled) = true) ∧
        (errorsIs (some cause) (some Error.Canceled) = false →
          (Stop running0).2 = some cause) :=
  (Stop_spec running0).2 Context.live rfl

/-- C2 (as stated, refuted): `Wait` returns `context.Canceled` after `Shutdown`
ran, after a direct `Stop`, and after the caller cancelled its own context: the
three values are one and the same. -/
theorem Wait_same_value_after_Stop_and_cancel :
    (Wait envShutdown withShutdown Context.live [SelectCase.recv, SelectCase.done]).result =
      some (some Error.Canceled) ∧
    (waitLoop envNil [SelectCase.done] (Stop running0).1).result =
      some (some Error.Canceled) ∧
    (waitLoop envNil [SelectCase.done]
      (callerDone running0 Error.Canceled Error.Canceled)).result =
      some (some Error.Canceled) := by
  refine ⟨?_, rfl, rfl⟩
  simp [Wait, waitEnter, withShutdown, deliver, Add, New, Outcome.stateOr, addOne, Sigman.printf,
    Context.Err, SIGTERM, waitLoop, loopIter, Chan.recv, WithCancel, runHandlers, envShutdown,
    Shutdown, runBody, runCall, Stop, Context.cancel, Context.Cause, errorsIs, Error.is,
    Run.result]

/-! ## Calls made while the dispatch loop holds the lock -/

/-- C3 (as stated, refuted): a handler that calls `Add`, `Remove`, `RemoveAll`
or `Close` on its manager never returns, and the dispatch that invoked it is
blocked; a handler that calls `Stop` and `Ctx` returns and the loop goes on. -/
theorem dispatch_blocked_by_reentrant_call :
    loopIter envReentrant SelectCase.recv (pending [1]) = Run.blocked ∧
    loopIter envReentrant SelectCase.recv (pending [2]) = Run.blocked ∧
    loopIter envReentrant SelectCase.recv (pending [3]) = Run.blocked ∧
    loopIter envReentrant SelectCase.recv (pending [4]) = Run.blocked ∧
    (∃ sm', loopIter envReentrant SelectCase.recv (pending [5]) = Run.running sm') := by
  refine ⟨?_, ?_, ?_, ?_, ?_⟩
  · simp [loopIter, pending, running0, New, Chan.recv, runHandlers, envReentrant, runBody,
      runCall, Add, Sigman.printf]
  · simp [loopIter, pending, running0, New, Chan.recv, runHandlers, envReentrant, runBody,
      runCall, Remove, Sigman.printf]
  · simp [loopIter, pending, running0, New, Chan.recv, runHandlers, envReentrant, runBody,
      runCall, RemoveAll, Sigman.printf]
  · simp [loopIter, pending, running0, New, Chan.recv, runHandlers, envReentrant, runBody,
      runCall, Close, Sigman.printf]
  · simp [loopIter, pending, running0, New, Chan.recv, runHandlers, envReentrant, runBody,
      runCall, Stop, Sigman.printf, Context.cancel, Context.Cause, errorsIs, Error.is]

/-! ## Close -/

theorem waitLoop_closed_channel (env : Env) (n : Nat) (sm : Sigman)
    (hb : sm.ch.buf = []) (hc : sm.ch.closed = true) (hh : sm.handlers Signal.nil = none)
    (hl : sm.locked = false) :
    ∃ sm', waitLoop env (List.replicate n SelectCase.recv) sm = Run.running sm' ∧
      sm'.logger = sm.logger ++ List.replicate n (LogLine.noHandler Signal.nil) := by
  induction n generalizing sm with
  | zero => exact ⟨sm, rfl, by simp⟩
  | succ n ih =>
    have hr : sm.ch.recv = some (Signal.nil, sm.ch) := by
      simp [Chan.recv, hb, hc]
    have hstep : loopIter env SelectCase.recv sm =
        Run.running { (defaultHandler Signal.nil { sm with locked := true }).1 with
          locked := false } := by
      simp [loopIter, hr, hl, hh]
    obtain ⟨sm', h1, h2⟩ := ih
      { (defaultHandler Signal.nil { sm with locked := true }).1 with locked := false }
      hb hc hh rfl
    refine ⟨sm', ?_, ?_⟩
    · simp only [List.replicate_succ, waitLoop, hstep]
      exact h1
    · rw [h2]
      simp [defaultHandler, Sigman.printf, List.replicate_succ]

/-- C4 (defect): after `Close` on a new manager, `Wait` with a live context
receives the zero value from the closed channel on every iteration and runs the
default handler each time: after `n` iterations it is still running and has
logged `n` no-handler lines.  On a running manager, after `Close` the receive
case of the `select` can still be taken and runs the default handler. -/
theorem Wait_after_Close_still_receives (env : Env) (signals : List Signal) (n : Nat) :
    (∃ c sm', Close (New signals) = Outcome.ret c none ∧
      c.ch.closed = true ∧ c.ch.notify = false ∧
      Wait env c Context.live (List.replicate n SelectCase.recv) = Run.running sm' ∧
      sm'.logger = List.replicate n (LogLine.noHandler Signal.nil)) ∧
    (∃ c sm', Close running0 = Outcome.ret c none ∧
      loopIter env SelectCase.recv c = Run.running sm' ∧
      sm'.logger = [LogLine.noHandler Signal.nil]) := by
  constructor
  · obtain ⟨sm', h1, h2⟩ := waitLoop_closed_channel env n
      { New signals with
        ch := { buf := [], closed := true, notify := false }
        started := true, ctx := some Context.live } rfl rfl rfl rfl
    refine ⟨{ New signals with ch := { buf := [], closed := true, notify := false } }, sm',
      rfl, rfl, rfl, ?_, ?_⟩
    · exact h1
    · simpa [New] using h2
  · exact ⟨_, _, rfl, rfl, rfl⟩

/-! ## Registration order -/

theorem addOne_handlers (f : HandlerId) (sm : Sigman) (x s : Signal) :
    (addOne f sm x).handlers s =
      if s = x then some ((sm.handlers s).getD [] ++ [f]) else sm.handlers s := by
  by_cases h : s = x
  · subst h
    cases hs : sm.handlers s <;> simp [addOne, Sigman.printf, hs]
  · simp [addOne, Sigman.printf, Function.update, h]

theorem foldl_addOne_handlers (f : HandlerId) (signals : List Signal) (sm : Sigman)
    (s : Signal) :
    (signals.foldl (addOne f) sm).handlers s =
      if s ∈ signals then
        some ((sm.handlers s).getD [] ++ List.replicate (signals.count s) f)
      else sm.handlers s := by
  induction signals generalizing sm with
  | nil => simp
  | cons x xs ih =>
    rw [List.foldl_cons, ih, addOne_handlers]
    by_cases hx : s = x
    · subst hx
      by_cases hm : s ∈ xs
      · simp [hm, List.replicate_succ, List.count_cons_self]
      · simp [hm, List.count_eq_zero_of_not_mem hm]
    · have hx' : x ≠ s := fun h => hx h.symm
      by_cases hm : s ∈ xs
      · simp [hm, hx, List.count_cons_of_ne hx']
      · simp [hm, hx]

theorem Add_ret_nil (sm sm1 : Sigman) (f : Option HandlerId) (signals : List Signal)
    (h : Add sm f signals = Outcome.ret sm1 none) :
    ∃ fn, f = some fn ∧
      ∀ s, sm1.handlers s =
        if s ∈ signals then
          some ((sm.handlers s).getD [] ++ List.replicate (signals.count s) fn)
        else sm.handlers s := by
  cases f with
  | none => simp [Add] at h
  | some fn =>
    refine ⟨fn, rfl, fun s => ?_⟩
    cases signals with
    | nil => simp [Add] at h
    | cons x xs =>
      by_cases hl : sm.locked = true
      · simp [Add, hl] at h
      · have hl' : sm.locked = false := by simpa using hl
        simp only [Add, List.length_cons, Nat.succ_ne_zero, if_false, hl', Bool.false_eq_true,
          Outcome.ret.injEq, and_true] at h
        subst h
        exact foldl_addOne_handlers fn (x :: xs) { sm with locked := true } s

theorem specAdded_nil_of_not_named (s : Signal)
    (calls : List (Option HandlerId × List Signal)) (h : ∀ c ∈ calls, s ∉ c.2) :
    specAdded s calls = [] := by
  induction calls with
  | nil => rfl
  | cons c rest ih =>
    obtain ⟨f, signals⟩ := c
    have h1 : s ∉ signals := h (f, signals) (List.mem_cons_self _ _)
    have h2 : specAdded s rest = [] := ih (fun c hc => h c (List.mem_cons_of_mem _ hc))
    cases f with
    | none => simpa [specAdded] using h2
    | some fn => simp [specAdded, h2, List.count_eq_zero_of_not_mem h1]

/-- C7: after a sequence of `Add` calls that all return nil, the handler list
of a signal named by some call is its previous list (empty when it had no
entry) followed by the handlers of the calls that named it, in call order, one
entry for each occurrence; the entry of a signal no call named is unchanged. -/
theorem addSeq_order (sm sm' : Sigman) (calls : List (Option HandlerId × List Signal))
    (h : addSeq sm calls = some sm') (s : Signal) :
    ((∃ c ∈ calls, s ∈ c.2) →
      sm'.handlers s = some ((sm.handlers s).getD [] ++ specAdded s calls)) ∧
    ((∀ c ∈ calls, s ∉ c.2) → sm'.handlers s = sm.handlers s) := by
  induction calls generalizing sm with
  | nil =>
    simp only [addSeq, Option.some.injEq] at h
    subst h
    simp
  | cons c rest ih =>
    obtain ⟨f, signals⟩ := c
    cases hadd : Add sm f signals with
    | blocked => simp [addSeq, hadd] at h
    | panicked => simp [addSeq, hadd] at h
    | ret sm1 err =>
      cases err with
      | some e => simp [addSeq, hadd] at h
      | none =>
        simp only [addSeq, hadd] at h
        obtain ⟨fn, hf, hone⟩ := Add_ret_nil sm sm1 f signals hadd
        subst hf
        obtain ⟨ih1, ih2⟩ := ih sm1 h
        have h1 := hone s
        constructor
        · rintro ⟨c, hc, hs⟩
          by_cases hrest : ∃ c ∈ rest, s ∈ c.2
          · rw [ih1 hrest, h1]
            by_cases hm : s ∈ signals
            · simp [hm, specAdded]
            · simp [hm, specAdded, List.count_eq_zero_of_not_mem hm]
          · have hrest' : ∀ c ∈ rest, s ∉ c.2 := by
              intro c hc hs
              exact hrest ⟨c, hc, hs⟩
            have hm : s ∈ signals := by
              rcases List.mem_cons.mp hc with hc | hc
              · subst hc
                exact hs
              · exact absurd hs (hrest' c hc)
            rw [ih2 hrest', h1]
            simp [hm, specAdded, specAdded_nil_of_not_named s rest hrest']
        · intro hall
          have hm : s ∉ signals := hall (some fn, signals) (List.mem_cons_self _ _)
          have hrest' : ∀ c ∈ rest, s ∉ c.2 := fun c hc => hall c (List.mem_cons_of_mem _ hc)
          rw [ih2 hrest', h1]
          simp [hm]

/-- Witness for C7: handler 7 added for `SIGUSR1` twice in one call, then
handler 8 for `SIGUSR1`, then handler 7 again, on a registry that already holds
handler 3 for `SIGUSR1`; and `SIGUSR2` is named by the first call only. -/
theorem addSeq_order_witness :
    ((addSeq { pending [3] with ch := (New []).ch }
        [(some 7, [SIGUSR1, SIGUSR2, SIGUSR1]), (some 8, [SIGUSR1]),
          (some 7, [SIGUSR1])]).getD (New [])).handlers SIGUSR1 =
      some ((({ pending [3] with ch := (New []).ch } : Sigman).handlers SIGUSR1).getD [] ++
        specAdded SIGUSR1
          [(some 7, [SIGUSR1, SIGUSR2, SIGUSR1]), (some 8, [SIGUSR1]),
            (some 7, [SIGUSR1])]) ∧
    (({ pending [3] with ch := (New []).ch } : Sigman).handlers SIGUSR1).getD [] ++
      specAdded SIGUSR1
        [(some 7, [SIGUSR1, SIGUSR2, SIGUSR1]), (some 8, [SIGUSR1]), (some 7, [SIGUSR1])] =
      [3, 7, 7, 8, 7] :=
  ⟨(addSeq_order { pending [3] with ch := (New []).ch } _
      [(some 7, [SIGUSR1, SIGUSR2, SIGUSR1]), (some 8, [SIGUSR1]), (some 7, [SIGUSR1])]
      rfl SIGUSR1).1 ⟨(some 8, [SIGUSR1]), by simp, by simp⟩, by decide⟩

/-! ## Handlers under the lock -/

theorem Context.cancel_cancel (c : Context) : c.cancel.cancel = c.cancel := by
  cases c <;> rfl

theorem map_cancel_map_cancel (a : Option Context) :
    (a.map Context.cancel).map Context.cancel = a.map Context.cancel := by
  cases a with
  | none => rfl
  | some c => simp [Context.cancel_cancel]

theorem filter_map_user (us : List Nat) :
    (us.map LogLine.user).filter (fun l => !l.isUser) = [] := by
  induction us with
  | nil => rfl
  | cons u rest ih => simp [LogLine.isUser]

/-- Under the lock a call that returns has at most cancelled the governing
context. -/
theorem runCall_effect (c : Call) (sm sm' : Sigman) (e : Option Error)
    (hl : sm.locked = true) (h : runCall c sm = Outcome.ret sm' e) :
    ∃ cx, sm' = { sm with ctx := cx } ∧ (cx = sm.ctx ∨ cx = sm.ctx.map Context.cancel) := by
  cases c with
  | Add f signals =>
    cases f with
    | none =>
      simp only [runCall, Add, Outcome.ret.injEq] at h
      exact ⟨sm.ctx, h.1.symm, Or.inl rfl⟩
    | some fn =>
      cases signals with
      | nil =>
        simp only [runCall, Add, List.length_nil, if_true, Outcome.ret.injEq] at h
        exact ⟨sm.ctx, h.1.symm, Or.inl rfl⟩
      | cons x xs => simp [runCall, Add, hl] at h
  | Remove signals =>
    cases signals with
    | nil =>
      simp only [runCall, Remove, List.length_nil, if_true, Outcome.ret.injEq] at h
      exact ⟨sm.ctx, h.1.symm, Or.inl rfl⟩
    | cons x xs => simp [runCall, Remove, hl] at h
  | RemoveAll => simp [runCall, RemoveAll, hl] at h
  | Stop =>
    simp only [runCall, Outcome.ret.injEq] at h
    refine ⟨sm.ctx.map Context.cancel, ?_, Or.inr rfl⟩
    rw [← h.1, Stop_state]
  | Close => simp [runCall, Close, hl] at h
  | Ctx =>
    simp only [runCall, Outcome.ret.injEq] at h
    exact ⟨sm.ctx, h.1.symm, Or.inl rfl⟩

/-- Under the lock a call is blocked exactly when it reaches `Lock()`. -/
theorem runCall_locks (c : Call) (sm : Sigman) (hl : sm.locked = true) :
    (c.locks = true → runCall c sm = Outcome.blocked) ∧
    (c.locks = false → ∃ sm' e, runCall c sm = Outcome.ret sm' e) := by
  cases c with
  | Add f signals =>
    cases f with
    | none => simp [runCall, Add, Call.locks]
    | some fn =>
      cases signals with
      | nil => simp [runCall, Add, Call.locks]
      | cons x xs => simp [runCall, Add, Call.locks, hl]
  | Remove signals =>
    cases signals with
    | nil => simp [runCall, Remove, Call.locks]
    | cons x xs => simp [runCall, Remove, Call.locks, hl]
  | RemoveAll => simp [runCall, RemoveAll, Call.locks, hl]
  | Stop => simp [runCall, Call.locks]
  | Close => simp [runCall, Close, Call.locks, hl]
  | Ctx => simp [runCall, Call.locks]

/-- Under the lock a handler that returns has at most cancelled the governing
context and written lines of its own. -/
theorem runBody_effect (b : HandlerBody) (sm sm' : Sigman) (e : Option Error)
    (hl : sm.locked = true) (h : runBody b sm = Outcome.ret sm' e) :
    ∃ (cx : Option Context) (us : List Nat),
      sm' = { sm with ctx := cx, logger := sm.logger ++ us.map LogLine.user } ∧
      (cx = sm.ctx ∨ cx = sm.ctx.map Context.cancel) := by
  induction b generalizing sm with
  | ret e1 =>
    simp only [runBody, Outcome.ret.injEq] at h
    refine ⟨sm.ctx, [], ?_, Or.inl rfl⟩
    rw [← h.1]
    simp
  | retCall c =>
    obtain ⟨cx, h1, h2⟩ := runCall_effect c sm sm' e hl h
    refine ⟨cx, [], ?_, h2⟩
    rw [h1]
    simp
  | seq c k ih =>
    cases hc : runCall c sm with
    | blocked => simp [runBody, hc] at h
    | panicked => simp [runBody, hc] at h
    | ret sm1 e1 =>
      simp only [runBody, hc] at h
      obtain ⟨cx1, h1, h2⟩ := runCall_effect c sm sm1 e1 hl hc
      subst h1
      obtain ⟨cx, us, h3, h4⟩ := ih { sm with ctx := cx1 } hl h
      refine ⟨cx, us, h3, ?_⟩
      simp only at h4
      rcases h2 with h2 | h2 <;> rcases h4 with h4 | h4
      · exact Or.inl (h4.trans h2)
      · exact Or.inr (by rw [h4, h2])
      · exact Or.inr (h4.trans h2)
      · exact Or.inr (by rw [h4, h2, map_cancel_map_cancel])
  | print tag k ih =>
    simp only [runBody] at h
    obtain ⟨cx, us, h3, h4⟩ := ih (sm.printf (LogLine.user tag)) hl h
    refine ⟨cx, tag :: us, ?_, h4⟩
    rw [h3]
    simp [Sigman.printf]

/-- Under the lock a handler body is blocked when one of its calls reaches
`Lock()`, and returns otherwise. -/
theorem runBody_locks (b : HandlerBody) (sm : Sigman) (hl : sm.locked = true) :
    (b.locks = true → runBody b sm = Outcome.blocked) ∧
    (b.locks = false → ∃ sm' e, runBody b sm = Outcome.ret sm' e) := by
  induction b generalizing sm with
  | ret e1 => exact ⟨fun h => by simp [HandlerBody.locks] at h, fun _ => ⟨sm, e1, rfl⟩⟩
  | retCall c => exact runCall_locks c sm hl
  | seq c k ih =>
    by_cases hc : c.locks = true
    · constructor
      · intro _
        simp [runBody, (runCall_locks c sm hl).1 hc]
      · intro h
        simp [HandlerBody.locks, hc] at h
    · have hc' : c.locks = false := by simpa using hc
      obtain ⟨sm1, e1, h1⟩ := (runCall_locks c sm hl).2 hc'
      obtain ⟨cx, h2, -⟩ := runCall_effect c sm sm1 e1 hl h1
      have hl1 : sm1.locked = true := by
        rw [h2]
        exact hl
      constructor
      · intro h
        have hk : k.locks = true := by simpa [HandlerBody.locks, hc'] using h
        simp only [runBody, h1]
        exact (ih sm1 hl1).1 hk
      · intro h
        have hk : k.locks = false := by simpa [HandlerBody.locks, hc'] using h
        simp only [runBody, h1]
        exact (ih sm1 hl1).2 hk
  | print tag k ih =>
    simp only [runBody, HandlerBody.locks]
    exact ih (sm.printf (LogLine.user tag)) hl

/-- The handler loop, when every handler returns: the states in which the
handlers are invoked, one after the other, and the errors they return. -/
theorem runHandlers_trace (env : Env) (sig : Signal) (hs : List HandlerId) (sm : Sigman)
    (hl : sm.locked = true)
    (hret : ∀ h ∈ hs, ∀ s : Sigman, s.locked = true →
      ∃ s' e, runBody (env h s.ctx sig) s = Outcome.ret s' e) :
    ∃ (sm2 : Sigman) (sts : List Sigman) (errs : List (Option Error)),
      runHandlers env sig hs sm = Outcome.ret sm2 none ∧
      sts.length = hs.length + 1 ∧ errs.length = hs.length ∧
      sts[0]? = some sm ∧
      (∀ i h, hs[i]? = some h → ∃ s t e, sts[i]? = some s ∧ errs[i]? = some e ∧
        runBody (env h s.ctx sig) s = Outcome.ret t e ∧
        sts[i + 1]? = some (t.printf (LogLine.exec h e))) ∧
      sts[hs.length]? = some sm2 ∧
      (∃ (cx : Option Context) (lg : List LogLine),
        sm2 = { sm with ctx := cx, logger := lg } ∧
        (cx = sm.ctx ∨ cx = sm.ctx.map Context.cancel) ∧
        lg.filter (fun l => !l.isUser) =
          sm.logger.filter (fun l => !l.isUser) ++ List.zipWith LogLine.exec hs errs) := by
  induction hs generalizing sm with
  | nil =>
    refine ⟨sm, [sm], [], rfl, rfl, rfl, rfl, ?_, rfl, sm.ctx, sm.logger, rfl, Or.inl rfl, ?_⟩
    · intro i h hi
      simp at hi
    · simp
  | cons h rest ih =>
    obtain ⟨s1, e, hb⟩ := hret h (List.mem_cons_self _ _) sm hl
    obtain ⟨cx1, us, h1, h2⟩ := runBody_effect _ sm s1 e hl hb
    obtain ⟨sm2, sts, errs, hr, hlen1, hlen2, h0, htr, hlast, cx, lg, hsm2, hcx, hlg⟩ :=
      ih (s1.printf (LogLine.exec h e)) (by rw [h1]; exact hl)
        (fun h' hm => hret h' (List.mem_cons_of_mem _ hm))
    refine ⟨sm2, sm :: sts, e :: errs, ?_, by simp [hlen1], by simp [hlen2], by simp, ?_, ?_,
      cx, lg, ?_, ?_, ?_⟩
    · simp only [runHandlers, hb]
      exact hr
    · intro i h' hi
      cases i with
      | zero =>
        simp only [List.getElem?_cons_zero, Option.some.injEq] at hi
        subst hi
        exact ⟨sm, s1, e, by simp, by simp, hb, by simpa using h0⟩
      | succ i =>
        simp only [List.getElem?_cons_succ] at hi
        obtain ⟨s, t, e', a, b, c, d⟩ := htr i h' hi
        exact ⟨s, t, e', by simpa using a, by simpa using b, c, by simpa using d⟩
    · simpa using hlast
    · rw [hsm2, h1]
      rfl
    · have hs1 : (s1.printf (LogLine.exec h e)).ctx = cx1 := by
        rw [h1]
        rfl
      rw [hs1] at hcx
      rcases h2 with h2 | h2 <;> rcases hcx with hcx | hcx
      · exact Or.inl (hcx.trans h2)
      · exact Or.inr (by rw [hcx, h2])
      · exact Or.inr (hcx.trans h2)
      · exact Or.inr (by rw [hcx, h2, map_cancel_map_cancel])
    · rw [hlg, h1]
      simp [Sigman.printf, List.filter_append, filter_map_user, LogLine.isUser]

/-- The handler loop is blocked as soon as one handler of the list makes a call
that reaches `Lock()`. -/
theorem runHandlers_blocked (env : Env) (sig : Signal) (hs : List HandlerId) (sm : Sigman)
    (hl : sm.locked = true)
    (hb : ∃ h ∈ hs, ∀ ctx, (env h ctx sig).locks = true) :
    runHandlers env sig hs sm = Outcome.blocked := by
  induction hs generalizing sm with
  | nil =>
    obtain ⟨h, hm, -⟩ := hb
    simp at hm
  | cons h0 rest ih =>
    by_cases hk : (env h0 sm.ctx sig).locks = true
    · simp [runHandlers, (runBody_locks _ sm hl).1 hk]
    · have hk' : (env h0 sm.ctx sig).locks = false := by simpa using hk
      obtain ⟨s1, e, h1⟩ := (runBody_locks _ sm hl).2 hk'
      obtain ⟨cx1, us, h2, -⟩ := runBody_effect _ sm s1 e hl h1
      obtain ⟨h, hm, hlk⟩ := hb
      have hrest : ∃ h ∈ rest, ∀ ctx, (env h ctx sig).locks = true := by
        rcases List.mem_cons.mp hm with hm | hm
        · subst hm
          exact absurd (hlk sm.ctx) hk
        · exact ⟨h, hm, hlk⟩
      simp only [runHandlers, h1]
      exact ih (s1.printf (LogLine.exec h0 e)) (by rw [h2]; exact hl) hrest

/-- What the handler loop does to the governing context: nothing, or the
cancellation by `Stop`; and the latter when `Shutdown` is in the list. -/
theorem runHandlers_ctx (env : Env) (sig : Signal) (hs : List HandlerId) (sm sm' : Sigman)
    (e : Option Error) (hl : sm.locked = true)
    (h : runHandlers env sig hs sm = Outcome.ret sm' e) :
    (sm'.ctx = sm.ctx ∨ sm'.ctx = sm.ctx.map Context.cancel) ∧
    ((∃ h ∈ hs, ∀ ctx, env h ctx sig = Shutdown) →
      sm'.ctx = sm.ctx.map Context.cancel) := by
  induction hs generalizing sm with
  | nil =>
    simp only [runHandlers, Outcome.ret.injEq] at h
    refine ⟨Or.inl (by rw [h.1]), ?_⟩
    rintro ⟨h', hm, -⟩
    simp at hm
  | cons h0 rest ih =>
    cases hb : runBody (env h0 sm.ctx sig) sm with
    | blocked => simp [runHandlers, hb] at h
    | panicked => simp [runHandlers, hb] at h
    | ret s1 e0 =>
      simp only [runHandlers, hb] at h
      obtain ⟨cx1, us, h1, h2⟩ := runBody_effect _ sm s1 e0 hl hb
      have hs1 : (s1.printf (LogLine.exec h0 e0)).ctx = cx1 := by
        rw [h1]
        rfl
      obtain ⟨a, b⟩ := ih (s1.printf (LogLine.exec h0 e0)) (by rw [h1]; exact hl) h
      rw [hs1] at a b
      constructor
      · rcases h2 with h2 | h2 <;> rcases a with a | a
        · exact Or.inl (a.trans h2)
        · exact Or.inr (by rw [a, h2])
        · exact Or.inr (a.trans h2)
        · exact Or.inr (by rw [a, h2, map_cancel_map_cancel])
      · rintro ⟨h', hm, hsh⟩
        rcases List.mem_cons.mp hm with hm | hm
        · subst hm
          have hcx1 : cx1 = sm.ctx.map Context.cancel := by
            rw [hsh sm.ctx] at hb
            simp only [Shutdown, runBody, runCall, Outcome.ret.injEq] at hb
            have h3 : s1.ctx = sm.ctx.map Context.cancel := by
              rw [← hb.1, Stop_state]
            rw [h1] at h3
            exact h3
          rcases a with a | a
          · exact a.trans hcx1
          · rw [a, hcx1, map_cancel_map_cancel]
        · have b' := b ⟨h', hm, hsh⟩
          rcases h2 with h2 | h2
          · rw [b', h2]
          · rw [b', h2, map_cancel_map_cancel]

/-- A receive iteration never makes `Wait` return. -/
theorem loopIter_recv_result (env : Env) (sm : Sigman) :
    (loopIter env SelectCase.recv sm).result = none := by
  simp only [loopIter]
  cases sm.ch.recv with
  | none => rfl
  | some p =>
    obtain ⟨sig, ch1⟩ := p
    cases hl : sm.locked with
    | true => simp [Run.result]
    | false =>
      simp only [Bool.false_eq_true, if_false]
      cases sm.handlers sig with
      | none => rfl
      | some hs =>
        simp only
        cases runHandlers env sig hs
          (({ sm with ch := ch1, locked := true } : Sigman).printf
            (LogLine.got sig hs.length)) <;> rfl

/-- A receive iteration that completes leaves the governing context as it was
or cancelled by `Stop`. -/
theorem loopIter_recv_ctx (env : Env) (sm sm' : Sigman)
    (h : loopIter env SelectCase.recv sm = Run.running sm') :
    sm'.ctx = sm.ctx ∨ sm'.ctx = sm.ctx.map Context.cancel := by
  simp only [loopIter] at h
  cases hr : sm.ch.recv with
  | none => simp [hr] at h
  | some p =>
    obtain ⟨sig, ch1⟩ := p
    simp only [hr] at h
    cases hl : sm.locked with
    | true => simp [hl] at h
    | false =>
      simp only [hl, Bool.false_eq_true, if_false] at h
      cases hh : sm.handlers sig with
      | none =>
        simp only [hh, Run.running.injEq] at h
        exact Or.inl (by rw [← h]; rfl)
      | some hs =>
        simp only [hh] at h
        cases hrun : runHandlers env sig hs
          (({ sm with ch := ch1, locked := true } : Sigman).printf
            (LogLine.got sig hs.length)) with
        | blocked => simp [hrun] at h
        | panicked => simp [hrun] at h
        | ret sm2 e =>
          simp only [hrun, Run.running.injEq] at h
          have h1 := (runHandlers_ctx env sig hs _ sm2 e rfl hrun).1
          rw [← h]
          exact h1

/-- Once the governing context is done with cause `k`, `Wait` returns `k`
whenever it returns, and returns it as soon as the done case is taken. -/
theorem waitLoop_done_ctx (env : Env) (sched : List SelectCase) (sm : Sigman)
    (err k : Error) (hc : sm.ctx = some (Context.done err k)) :
    (∀ r, (waitLoop env sched sm).result = some r → r = some k) ∧
    (∀ ps, waitLoop env (SelectCase.done :: ps) sm = Run.returned sm (some k)) := by
  constructor
  · induction sched generalizing sm with
    | nil =>
      intro r h
      simp [waitLoop, Run.result] at h
    | cons p ps ih =>
      intro r h
      cases p with
      | done =>
        simp only [waitLoop, loopIter, hc, Context.Err, Context.Cause, Run.result,
          Option.some.injEq] at h
        exact h.symm
      | recv =>
        cases hi : loopIter env SelectCase.recv sm with
        | running sm1 =>
          simp only [waitLoop, hi] at h
          have hc1 : sm1.ctx = some (Context.done err k) := by
            rcases loopIter_recv_ctx env sm sm1 hi with h1 | h1
            · rw [h1, hc]
            · rw [h1, hc]
              rfl
          exact ih sm1 hc1 r h
        | returned s1 r1 =>
          have h0 := loopIter_recv_result env sm
          rw [hi] at h0
          simp [Run.result] at h0
        | blocked =>
          simp [waitLoop, hi, Run.result] at h
        | notReady =>
          simp [waitLoop, hi, Run.result] at h
        | panicked =>
          simp [waitLoop, hi, Run.result] at h
  · intro ps
    simp [waitLoop, loopIter, hc, Context.Err, Context.Cause]

/-! ## The value Wait returns after a stop -/

/-- C2 (amended): in a running manager whose caller context is live (the
governing context is live, or already cancelled by an earlier `Stop`), a call
of `Stop` and a plain cancellation of the caller's context leave the manager in
one and the same state; in that state `Wait` returns `context.Canceled` as soon
as the done case is taken, and whatever is scheduled before, a returning `Wait`
returns `context.Canceled`.  The same holds when `Stop` is called by the
`Shutdown` handler, registered anywhere in the handler list of a received
signal: a `Wait` that returns after that dispatch returns `context.Canceled`,
and it does return at the next done case when the handlers of the list
return. -/
theorem Wait_after_Stop_returns_Canceled (env : Env) (sm : Sigman)
    (hctx : sm.ctx = some Context.live ∨
      sm.ctx = some (Context.done Error.Canceled Error.Canceled)) :
    (Stop sm).1 = callerDone sm Error.Canceled Error.Canceled ∧
    (∀ ps, waitLoop env (SelectCase.done :: ps) (Stop sm).1 =
      Run.returned (Stop sm).1 (some Error.Canceled)) ∧
    (∀ ps, waitLoop env (SelectCase.done :: ps) (callerDone sm Error.Canceled Error.Canceled) =
      Run.returned (callerDone sm Error.Canceled Error.Canceled) (some Error.Canceled)) ∧
    (∀ sched r, (waitLoop env sched (Stop sm).1).result = some r →
      r = some Error.Canceled) ∧
    (∀ sched r,
      (waitLoop env sched (callerDone sm Error.Canceled Error.Canceled)).result = some r →
      r = some Error.Canceled) ∧
    (∀ sig ch1 hs h, sm.locked = false → sm.ch.recv = some (sig, ch1) →
      sm.handlers sig = some hs → h ∈ hs → (∀ ctx, env h ctx sig = Shutdown) →
      (∀ ps r, (waitLoop env (SelectCase.recv :: ps) sm).result = some r →
        r = some Error.Canceled) ∧
      ((∀ h' ∈ hs, ∀ s : Sigman, s.locked = true →
          ∃ s' e, runBody (env h' s.ctx sig) s = Outcome.ret s' e) →
        ∀ ps, (waitLoop env (SelectCase.recv :: SelectCase.done :: ps) sm).result =
          some (some Error.Canceled))) := by
  have hstop : (Stop sm).1.ctx = some (Context.done Error.Canceled Error.Canceled) := by
    rw [Stop_state]
    rcases hctx with hctx | hctx <;> simp [hctx, Context.cancel]
  have hcall : (callerDone sm Error.Canceled Error.Canceled).ctx =
      some (Context.done Error.Canceled Error.Canceled) := by
    rcases hctx with hctx | hctx <;> simp [callerDone, hctx, Context.parentDone]
  have hdisp : ∀ sig ch1 hs h, sm.locked = false → sm.ch.recv = some (sig, ch1) →
      sm.handlers sig = some hs → h ∈ hs → (∀ ctx, env h ctx sig = Shutdown) →
      ∀ sm1, loopIter env SelectCase.recv sm = Run.running sm1 →
        sm1.ctx = some (Context.done Error.Canceled Error.Canceled) := by
    intro sig ch1 hs h hl hr hh hm hsh sm1 hi
    simp only [loopIter, hr, hl, Bool.false_eq_true, if_false, hh] at hi
    cases hrun : runHandlers env sig hs
      (({ sm with ch := ch1, locked := true } : Sigman).printf
        (LogLine.got sig hs.length)) with
    | blocked => simp [hrun] at hi
    | panicked => simp [hrun] at hi
    | ret sm2 e =>
      simp only [hrun, Run.running.injEq] at hi
      have h1 := (runHandlers_ctx env sig hs _ sm2 e rfl hrun).2 ⟨h, hm, hsh⟩
      rw [← hi]
      rcases hctx with hctx | hctx
      · simp only [Sigman.printf, hctx] at h1
        simpa [Context.cancel] using h1
      · simp only [Sigman.printf, hctx] at h1
        simpa [Context.cancel] using h1
  refine ⟨?_, ?_, ?_, ?_, ?_, ?_⟩
  · rw [Stop_state]
    rcases hctx with hctx | hctx <;>
      simp [callerDone, hctx, Context.cancel, Context.parentDone]
  · exact (waitLoop_done_ctx env [] _ _ _ hstop).2
  · exact (waitLoop_done_ctx env [] _ _ _ hcall).2
  · intro sched
    exact (waitLoop_done_ctx env sched _ _ _ hstop).1
  · intro sched
    exact (waitLoop_done_ctx env sched _ _ _ hcall).1
  · intro sig ch1 hs h hl hr hh hm hsh
    constructor
    · intro ps r hres
      cases hi : loopIter env SelectCase.recv sm with
      | running sm1 =>
        simp only [waitLoop, hi] at hres
        exact (waitLoop_done_ctx env ps sm1 _ _
          (hdisp sig ch1 hs h hl hr hh hm hsh sm1 hi)).1 r hres
      | returned s1 r1 =>
        have h0 := loopIter_recv_result env sm
        rw [hi] at h0
        simp [Run.result] at h0
      | blocked => simp [waitLoop, hi, Run.result] at hres
      | notReady => simp [waitLoop, hi, Run.result] at hres
      | panicked => simp [waitLoop, hi, Run.result] at hres
    · intro hret ps
      obtain ⟨sm2, -, -, hrun, -⟩ := runHandlers_trace env sig hs
        (({ sm with ch := ch1, locked := true } : Sigman).printf (LogLine.got sig hs.length))
        rfl hret
      have hi : loopIter env SelectCase.recv sm = Run.running { sm2 with locked := false } := by
        simp only [loopIter, hr, hl, Bool.false_eq_true, if_false, hh]
        simp [hrun]
      have hc := hdisp sig ch1 hs h hl hr hh hm hsh _ hi
      simp only [waitLoop, hi]
      have h2 := (waitLoop_done_ctx env [] { sm2 with locked := false } _ _ hc).2 ps
      simp only [waitLoop] at h2
      rw [h2]
      rfl

/-- Witness for C2: the running manager `pending [2, 0]`, where handler 2
returns nil and handler 0 is `Shutdown`. -/
theorem Wait_after_Stop_returns_Canceled_witness :
    (Stop (pending [2, 0])).1 = callerDone (pending [2, 0]) Error.Canceled Error.Canceled ∧
    waitLoop envShutdown [SelectCase.done] (Stop (pending [2, 0])).1 =
      Run.returned (Stop (pending [2, 0])).1 (some Error.Canceled) ∧
    waitLoop envShutdown [SelectCase.done]
        (callerDone (pending [2, 0]) Error.Canceled Error.Canceled) =
      Run.returned (callerDone (pending [2, 0]) Error.Canceled Error.Canceled)
        (some Error.Canceled) ∧
    (waitLoop envShutdown [SelectCase.recv, SelectCase.done] (pending [2, 0])).result =
      some (some Error.Canceled) :=
  ⟨(Wait_after_Stop_returns_Canceled envShutdown (pending [2, 0]) (Or.inl rfl)).1,
   (Wait_after_Stop_returns_Canceled envShutdown (pending [2, 0]) (Or.inl rfl)).2.1 [],
   (Wait_after_Stop_returns_Canceled envShutdown (pending [2, 0]) (Or.inl rfl)).2.2.1 [],
   ((Wait_after_Stop_returns_Canceled envShutdown (pending [2, 0]) (Or.inl rfl)).2.2.2.2.2 SIGUSR1
     { buf := [], closed := false, notify := true } [2, 0] 0 rfl rfl rfl (by simp)
     (fun _ => rfl)).2
     (fun h' _ s _ => by
       unfold envShutdown
       split
       · exact ⟨_, _, rfl⟩
       · exact ⟨_, _, rfl⟩) []⟩

/-! ## Calls on the manager from inside a handler -/

/-- C3 (amended): the dispatch loop holds the lock while it runs the handlers
of a received signal.  When one handler of the list makes, anywhere in its
body, a call that reaches `Lock()` (`Add` with a handler and at least one
signal, `Remove` with at least one signal, `RemoveAll`, `Close`), the dispatch
is blocked: it never completes.  When the handlers make only calls that do not
reach `Lock()` (`Stop`, `Ctx`, `Add` with invalid arguments, `Remove` with no
signal), the dispatch completes, with the registry unchanged and the lock
released. -/
theorem dispatch_reentrant_calls (env : Env) (sm : Sigman) (sig : Signal) (ch1 : Chan)
    (hs : List HandlerId) (hl : sm.locked = false) (hr : sm.ch.recv = some (sig, ch1))
    (hh : sm.handlers sig = some hs) :
    ((∃ h ∈ hs, ∀ ctx, (env h ctx sig).locks = true) →
      loopIter env SelectCase.recv sm = Run.blocked) ∧
    ((∀ h ∈ hs, ∀ ctx, (env h ctx sig).locks = false) →
      ∃ sm', loopIter env SelectCase.recv sm = Run.running sm' ∧
        sm'.handlers = sm.handlers ∧ sm'.locked = false) := by
  constructor
  · intro hb
    have hrun := runHandlers_blocked env sig hs
      (({ sm with ch := ch1, locked := true } : Sigman).printf (LogLine.got sig hs.length))
      rfl hb
    simp only [loopIter, hr, hl, Bool.false_eq_true, if_false, hh]
    simp [hrun]
  · intro hn
    obtain ⟨sm2, -, -, hrun, -, -, -, -, -, cx, lg, hsm2, -, -⟩ := runHandlers_trace env sig hs
      (({ sm with ch := ch1, locked := true } : Sigman).printf (LogLine.got sig hs.length))
      rfl (fun h hm s hls => (runBody_locks _ s hls).2 (hn h hm s.ctx))
    refine ⟨{ sm2 with locked := false }, ?_, ?_, rfl⟩
    · simp only [loopIter, hr, hl, Bool.false_eq_true, if_false, hh]
      simp [hrun]
    · rw [hsm2]
      rfl

/-- Witness for C3: handler 5 calls `Stop` and `Ctx` and returns; handler 6
calls `Stop` and then `Remove`, so the dispatch of `pending [5, 6]` is blocked,
while the dispatch of `pending [5, 0]` completes. -/
theorem dispatch_reentrant_calls_witness :
    loopIter envReentrant SelectCase.recv (pending [5, 6]) = Run.blocked ∧
    (∃ sm', loopIter envReentrant SelectCase.recv (pending [5, 0]) = Run.running sm' ∧
      sm'.handlers = (pending [5, 0]).handlers ∧ sm'.locked = false) :=
  ⟨(dispatch_reentrant_calls envReentrant (pending [5, 6]) SIGUSR1
      { buf := [], closed := false, notify := true } [5, 6] rfl rfl rfl).1
      ⟨6, by simp, fun _ => rfl⟩,
   (dispatch_reentrant_calls envReentrant (pending [5, 0]) SIGUSR1
      { buf := [], closed := false, notify := true } [5, 0] rfl rfl rfl).2
      (fun h hm _ => by
        rcases List.mem_cons.mp hm with hm | hm
        · subst hm
          rfl
        · rcases List.mem_cons.mp hm with hm | hm
          · subst hm
            rfl
          · simp at hm)⟩

/-! ## Dispatch of one signal -/

/-- C6: when a signal with a handler list is received and every handler of the
list returns, the dispatch step invokes the handlers one after the other in
list order, each exactly once: there is a chain of states, starting at the
state that holds the lock and has logged the count line, in which handler `i`
is run on state `i`, returns with some error `e`, and state `i + 1` is the
state it returned with plus the exec line carrying `e`; the dispatch ends in
the last state of the chain with the lock released.  Whatever the errors, the
lines written by the manager are the count line and then one exec line per
handler in order, the registry, the watched signals, the channel remainder and
the started flag are unchanged, the governing context is as it was or cancelled
by a handler's `Stop`, and the loop is still running: the done case is not
ready while the governing context is live. -/
theorem dispatch_runs_every_handler (env : Env) (sm : Sigman) (sig : Signal) (ch1 : Chan)
    (hs : List HandlerId) (hl : sm.locked = false) (hr : sm.ch.recv = some (sig, ch1))
    (hh : sm.handlers sig = some hs)
    (hret : ∀ h ∈ hs, ∀ s : Sigman, s.locked = true →
      ∃ s' e, runBody (env h s.ctx sig) s = Outcome.ret s' e) :
    ∃ (sm' : Sigman) (sts : List Sigman) (errs : List (Option Error)),
      loopIter env SelectCase.recv sm = Run.running sm' ∧
      sts.length = hs.length + 1 ∧ errs.length = hs.length ∧
      sts[0]? = some (({ sm with ch := ch1, locked := true } : Sigman).printf
        (LogLine.got sig hs.length)) ∧
      (∀ i h, hs[i]? = some h → ∃ s t e, sts[i]? = some s ∧ errs[i]? = some e ∧
        runBody (env h s.ctx sig) s = Outcome.ret t e ∧
        sts[i + 1]? = some (t.printf (LogLine.exec h e))) ∧
      (∃ last, sts[hs.length]? = some last ∧ sm' = { last with locked := false }) ∧
      sm'.logger.filter (fun l => !l.isUser) =
        sm.logger.filter (fun l => !l.isUser) ++
          LogLine.got sig hs.length :: List.zipWith LogLine.exec hs errs ∧
      sm'.handlers = sm.handlers ∧ sm'.signals = sm.signals ∧ sm'.ch = ch1 ∧
      sm'.started = sm.started ∧ sm'.locked = false ∧
      (sm'.ctx = sm.ctx ∨ sm'.ctx = sm.ctx.map Context.cancel) ∧
      (sm'.ctx = some Context.live → loopIter env SelectCase.done sm' = Run.notReady) := by
  obtain ⟨sm2, sts, errs, hrun, hlen1, hlen2, h0, htr, hlast, cx, lg, hsm2, hcx, hlg⟩ :=
    runHandlers_trace env sig hs
      (({ sm with ch := ch1, locked := true } : Sigman).printf (LogLine.got sig hs.length))
      rfl hret
  refine ⟨{ sm2 with locked := false }, sts, errs, ?_, hlen1, hlen2, h0, htr,
    ⟨sm2, hlast, rfl⟩, ?_, ?_, ?_, ?_, ?_, rfl, ?_, ?_⟩
  · simp only [loopIter, hr, hl, Bool.false_eq_true, if_false, hh]
    simp [hrun]
  · rw [hsm2]
    simp only [hlg]
    simp [Sigman.printf, List.filter_append, LogLine.isUser]
  · rw [hsm2]
    rfl
  · rw [hsm2]
    rfl
  · rw [hsm2]
    rfl
  · rw [hsm2]
    rfl
  · rw [hsm2]
    exact hcx
  · intro hc
    simp only at hc
    simp [loopIter, hc, Context.Err]

/-- Witness for C6: handlers 1 and 2 are registered for the pending `SIGUSR1`;
handler 1 writes a line and returns an error, handler 2 writes a line and
returns nil. -/
theorem dispatch_runs_every_handler_witness :
    ∃ (sm' : Sigman) (sts : List Sigman) (errs : List (Option Error)),
      loopIter envFail SelectCase.recv (pending [1, 2]) = Run.running sm' ∧
      sts.length = [1, 2].length + 1 ∧ errs.length = [1, 2].length ∧
      sts[0]? = some (({ pending [1, 2] with
        ch := { buf := [], closed := false, notify := true }, locked := true } : Sigman).printf
        (LogLine.got SIGUSR1 [1, 2].length)) ∧
      (∀ i h, [1, 2][i]? = some h → ∃ s t e, sts[i]? = some s ∧ errs[i]? = some e ∧
        runBody (envFail h s.ctx SIGUSR1) s = Outcome.ret t e ∧
        sts[i + 1]? = some (t.printf (LogLine.exec h e))) ∧
      (∃ last, sts[[1, 2].length]? = some last ∧ sm' = { last with locked := false }) ∧
      sm'.logger.filter (fun l => !l.isUser) =
        (pending [1, 2]).logger.filter (fun l => !l.isUser) ++
          LogLine.got SIGUSR1 [1, 2].length :: List.zipWith LogLine.exec [1, 2] errs ∧
      sm'.handlers = (pending [1, 2]).handlers ∧ sm'.signals = (pending [1, 2]).signals ∧
      sm'.ch = { buf := [], closed := false, notify := true } ∧
      sm'.started = (pending [1, 2]).started ∧ sm'.locked = false ∧
      (sm'.ctx = (pending [1, 2]).ctx ∨
        sm'.ctx = (pending [1, 2]).ctx.map Context.cancel) ∧
      (sm'.ctx = some Context.live → loopIter envFail SelectCase.done sm' = Run.notReady) :=
  dispatch_runs_every_handler envFail (pending [1, 2]) SIGUSR1
    { buf := [], closed := false, notify := true } [1, 2] rfl rfl rfl
    (fun h _ s _ => by
      unfold envFail
      split
      · exact ⟨_, _, rfl⟩
      · exact ⟨_, _, rfl⟩)

/-- The dispatch of the witness above, evaluated: the failing handler 1 and then
handler 2 each ran once, each writing its own line before its exec line. -/
theorem dispatch_envFail_log :
    ∃ sm', loopIter envFail SelectCase.recv (pending [1, 2]) = Run.running sm' ∧
      sm'.logger =
        [LogLine.got SIGUSR1 2, LogLine.user 1, LogLine.exec 1 (some (Error.New "boom")),
          LogLine.user 2, LogLine.exec 2 none] :=
  ⟨_, rfl, rfl⟩

end sigman
